import Mathlib

/-!
Shallow embedding of the `bd` key–value storage engine (Rust sources under
`src/`): the in-memory memtable (`src/memtable/inmemory.rs`), the key-range
index (`src/key_range/range.rs`) and the storage-engine orchestrator
(`src/storage_engine/storage.rs`).

Keys and values are byte strings, embedded as `List Nat`.  Machine integers
(`usize`, `u64`) are embedded as `Nat`; none of the verified paths can
overflow in a way the claims depend on, and the Rust code itself performs no
wrapping arithmetic on them.  Fallible Rust functions returning
`Result<T, StorageEngineError>` become `Except StorageEngineError T`, and
functions that can panic (an `unwrap` on an `Option`) return `Option` at the
top level.
-/

/-- Byte strings (`Vec<u8>` in the source). -/
abbrev Bytes := List Nat

/-- `SIZE_OF_U32` from the `consts` module: byte width of a `u32`. -/
def SIZE_OF_U32 : Nat := 4

/-- `SIZE_OF_U64` from the `consts` module: byte width of a `u64`. -/
def SIZE_OF_U64 : Nat := 8

/-- `SIZE_OF_U8` from the `consts` module: byte width of a `u8`. -/
def SIZE_OF_U8 : Nat := 1

/-- Modelled from the spec: the reserved `HEAD` sentinel key (the `consts`
module that defines `HEAD_ENTRY_KEY` is not under `src/`; the spec names the
sentinel `HEAD`).  Only its length matters to the verified paths. -/
def HEAD_ENTRY_KEY : Bytes := [72, 69, 65, 68]

/-- Modelled from the spec: the reserved `TAIL` sentinel key. -/
def TAIL_ENTRY_KEY : Bytes := [84, 65, 73, 76]

/-- Modelled from the spec: the byte payload written for a tombstone record,
`TOMB_STONE_MARKER.to_le_bytes().to_vec()` in the source.  The `consts`
module defining the marker is not under `src/`; the claims do not depend on
its value, only on the record's `is_tombstone` flag. -/
def TOMB_STONE_MARKER_BYTES : Bytes := [0, 0, 0, 0]

/-- The error enum of `src/err/mod.rs`, restricted to the variants the
embedded operations can produce (the omitted variants wrap I/O errors that a
pure embedding cannot raise). -/
inductive StorageEngineError where
  | KeyNotFoundInMemTable
  | KeyNotFoundInAnySSTableError
  | KeyNotFoundByAnyBloomFilterError
  | KeyFoundAsTombstoneInMemtableError
  | KeyFoundAsTombstoneInSSTableError
  | KeyFoundAsTombstoneInValueLogError
  | KeyNotFoundInValueLogError
  | NotFoundInDB
  | BiggestKeyIndexError
  deriving DecidableEq, Repr

open StorageEngineError

/-- `SizeUnit` from `src/storage_engine/storage.rs`. -/
inductive SizeUnit where
  | Bytes
  | Kilobytes
  | Megabytes
  | Gigabytes
  deriving DecidableEq, Repr

/-- `SizeUnit::to_bytes` (`storage.rs`). -/
def SizeUnit.to_bytes (u : SizeUnit) (value : Nat) : Nat :=
  match u with
  | .Bytes => value
  | .Kilobytes => value * 1024
  | .Megabytes => value * 1024 * 1024
  | .Gigabytes => value * 1024 * 1024 * 1024

/-- `Entry<Vec<u8>, usize>` from `src/memtable/inmemory.rs`. -/
structure Entry where
  key : Bytes
  val_offset : Nat
  created_at : Nat
  is_tombstone : Bool
  deriving DecidableEq, Repr

/-- Modelled from the spec: the Bloom filter (`bloom_filter` module, not
under `src/`).  The spec uses it only as a membership gate
(`contains` / `set`); false positives are abstracted away, so the filter is
embedded as the exact set of keys inserted so far. -/
abbrev BloomFilter := List Bytes

/-- Modelled from the spec: `BloomFilter::contains`. -/
def BloomFilter.bfContains (bf : BloomFilter) (key : Bytes) : Bool :=
  bf.contains key

/-- Modelled from the spec: `BloomFilter::set`. -/
def BloomFilter.bfSet (bf : BloomFilter) (key : Bytes) : BloomFilter :=
  key :: bf

/-- Modelled from the spec: `BloomFilter::new` (fresh, empty filter; the
sizing parameters do not affect the membership abstraction). -/
def BloomFilter.bfNew : BloomFilter := []

/-- Overwrite-or-append update of an association list; the extensional
behaviour of `SkipMap::insert` (ordered-map insert that replaces any
existing binding for the key). -/
def assocPut (l : List (Bytes × α)) (k : Bytes) (v : α) : List (Bytes × α) :=
  match l with
  | [] => [(k, v)]
  | (k', v') :: rest =>
      if k' = k then (k, v) :: rest else (k', v') :: assocPut rest k v

/-- Lookup in an association list (`SkipMap::get`). -/
def assocGet (l : List (Bytes × α)) (k : Bytes) : Option α :=
  match l with
  | [] => none
  | (k', v') :: rest => if k' = k then some v' else assocGet rest k

/-- `InMemoryTable<Vec<u8>>` from `src/memtable/inmemory.rs`.  The skip-map
index is embedded as an association list from key to
`(val_offset, created_at, is_tombstone)`; `created_at` (a `DateTime`)
becomes a `Nat` timestamp and `false_positive_rate` (an `f64` that is only
ever copied, never computed with) becomes a `Rat`. -/
structure InMemoryTable where
  index : List (Bytes × (Nat × Nat × Bool))
  bloom_filter : BloomFilter
  false_positive_rate : Rat
  size : Nat
  size_unit : SizeUnit
  capacity : Nat
  created_at : Nat
  read_only : Bool
  deriving DecidableEq, Repr

namespace InMemoryTable

/-- `InMemoryTable::with_specified_capacity_and_rate` (`inmemory.rs`).
The Rust asserts `false_positive_rate >= 0.0` and `capacity > 0`; the claims
that use this constructor do so at inputs satisfying both.  `now` stands for
the sampled `Utc::now()`. -/
def with_specified_capacity_and_rate (size_unit : SizeUnit) (capacity : Nat)
    (false_positive_rate : Rat) (now : Nat) : InMemoryTable :=
  let capacity_to_bytes := size_unit.to_bytes capacity
  { index := []
    bloom_filter := BloomFilter.bfNew
    size := 0
    size_unit := SizeUnit.Bytes
    capacity := capacity_to_bytes
    created_at := now
    false_positive_rate := false_positive_rate
    read_only := false }

/-- `InMemoryTable::insert` (`inmemory.rs`, lines 110–134).  Both branches
insert into the index and add `key.len() + SIZE_OF_U32 + SIZE_OF_U64 +
SIZE_OF_U8` to `size`; the Bloom filter is extended only when it did not
already contain the key.  Always returns `Ok(())`. -/
def insert (t : InMemoryTable) (entry : Entry) :
    Except StorageEngineError InMemoryTable :=
  if ¬ t.bloom_filter.bfContains entry.key then
    Except.ok { t with
      bloom_filter := t.bloom_filter.bfSet entry.key
      index := assocPut t.index entry.key
        (entry.val_offset, entry.created_at, entry.is_tombstone)
      size := t.size + (entry.key.length + SIZE_OF_U32 + SIZE_OF_U64 + SIZE_OF_U8) }
  else
    Except.ok { t with
      index := assocPut t.index entry.key
        (entry.val_offset, entry.created_at, entry.is_tombstone)
      size := t.size + (entry.key.length + SIZE_OF_U32 + SIZE_OF_U64 + SIZE_OF_U8) }

/-- `InMemoryTable::get` (`inmemory.rs`): Bloom gate, then index lookup.
The Rust returns `Result<Option<_>, _>` but never errs; the embedding keeps
the `Option`. -/
def get (t : InMemoryTable) (key : Bytes) : Option (Nat × Nat × Bool) :=
  if t.bloom_filter.bfContains key then assocGet t.index key else none

/-- `InMemoryTable::update` (`inmemory.rs`, lines 145–155): fails with
`KeyNotFoundInMemTable` when the Bloom filter rejects; otherwise overwrites
the index binding.  `size` is not touched. -/
def update (t : InMemoryTable) (entry : Entry) :
    Except StorageEngineError InMemoryTable :=
  if ¬ t.bloom_filter.bfContains entry.key then
    Except.error KeyNotFoundInMemTable
  else
    Except.ok { t with
      index := assocPut t.index entry.key
        (entry.val_offset, entry.created_at, entry.is_tombstone) }

/-- `InMemoryTable::delete` (`inmemory.rs`, lines 171–186): fails with
`KeyNotFoundInMemTable` when the Bloom filter rejects; otherwise inserts
`(entry.val_offset, now, entry.is_tombstone)` for the key, where `now` is
the freshly sampled `Utc::now().timestamp_millis()`. -/
def delete (t : InMemoryTable) (entry : Entry) (now : Nat) :
    Except StorageEngineError InMemoryTable :=
  if ¬ t.bloom_filter.bfContains entry.key then
    Except.error KeyNotFoundInMemTable
  else
    Except.ok { t with
      index := assocPut t.index entry.key
        (entry.val_offset, now, entry.is_tombstone) }

/-- `InMemoryTable::is_full` (`inmemory.rs`, lines 188–190). -/
def is_full (t : InMemoryTable) (key_len : Nat) : Bool :=
  t.size + key_len + SIZE_OF_U32 + SIZE_OF_U64 + SIZE_OF_U8 ≥ t.capacity

/-- `InMemoryTable::clear` (`inmemory.rs`). -/
def clear (t : InMemoryTable) : InMemoryTable :=
  { t with index := [], size := 0, bloom_filter := BloomFilter.bfNew }

/-- Runs `insert` and keeps the updated table.  `insert` always returns
`Ok` (see `insert` above), so this models both the `let _ = ...insert(...)`
and the `...insert(...)?` call sites in `storage.rs`, where the error branch
is unreachable. -/
def insertRun (t : InMemoryTable) (e : Entry) : InMemoryTable :=
  match t.insert e with
  | .ok t' => t'
  | .error _ => t

end InMemoryTable

/-! ## Key-range index (`src/key_range/range.rs`) -/

/-- Lexicographic comparison of byte strings: Rust's `\x3c[u8]>::cmp`. -/
def byteCmp : Bytes → Bytes → Ordering
  | [], [] => .eq
  | [], _ :: _ => .lt
  | _ :: _, [] => .gt
  | x :: xs, y :: ys =>
      match compare x y with
      | .eq => byteCmp xs ys
      | o => o

/-- `Range` from `src/key_range/range.rs`.  The `sst : Table` handle comes
from the `sst` module, which is not under `src/`; the claims never look
inside it, so it is embedded as an opaque numeric handle. -/
structure KRRange where
  smallest_key : Bytes
  biggest_key : Bytes
  sst : Nat
  deriving DecidableEq, Repr

/-- `KeyRange` from `src/key_range/range.rs`: a map from SST path to its
`Range`.  The `HashMap<PathBuf, Range>` is embedded as an association list
with opaque numeric paths; `range_scan` only iterates it. -/
structure KeyRange where
  key_ranges : List (Nat × KRRange)
  deriving DecidableEq, Repr

/-- `KeyRange::range_scan` (`range.rs`, lines 59–73): keeps a range when
`smallest_key ≤ start_key` OR `biggest_key ≥ end_key` (the source combines
the two comparisons with `||`). -/
def KeyRange.range_scan (kr : KeyRange) (start_key end_key : Bytes) : List KRRange :=
  (kr.key_ranges.filter (fun pr =>
      (byteCmp pr.2.smallest_key start_key == .lt
        || byteCmp pr.2.smallest_key start_key == .eq)
      || (byteCmp pr.2.biggest_key end_key == .gt
        || byteCmp pr.2.biggest_key end_key == .eq))).map (fun pr => pr.2)

/-- Spec-side predicate for C2, following the spec's words: an SST qualifies
when its key envelope `[smallest_key, biggest_key]` intersects `[lo, hi]`,
i.e. `smallest_key ≤ hi` and `biggest_key ≥ lo`. -/
def envelopeIntersects (r : KRRange) (lo hi : Bytes) : Bool :=
  (byteCmp r.smallest_key hi == .lt || byteCmp r.smallest_key hi == .eq)
  && (byteCmp r.biggest_key lo == .gt || byteCmp r.biggest_key lo == .eq)

/-! ## Value log

The `value_log` module is not under `src/`; the records, offsets and the
`append`/`get`/`set_head` operations below are modelled from the spec
(§3 record layout, §4.2 operations). -/

/-- Modelled from the spec: one value-log record
`key_len:u32 | value_len:u32 | created_at:u64 | is_tombstone:u8 | key | value`.
Also the element type yielded by `VLog::recover`. -/
structure VLogRecord where
  key : Bytes
  value : Bytes
  created_at : Nat
  is_tombstone : Bool
  deriving DecidableEq, Repr

/-- Byte length of a serialized value-log record (spec §3 layout); the same
expression the source uses to advance `most_recent_offset` in
`recover_memtable` (`storage.rs`, lines 798–803). -/
def VLogRecord.byteSize (r : VLogRecord) : Nat :=
  SIZE_OF_U32 + SIZE_OF_U32 + SIZE_OF_U64 + SIZE_OF_U8 + r.key.length + r.value.length

/-- Modelled from the spec: the append-only value log.  `records` is the
sequence of appended records; a record's offset is the sum of the byte sizes
of the records before it.  `head_offset`/`tail_offset` are the in-memory
pointers updated by `set_head`/`set_tail`. -/
structure ValueLog where
  records : List VLogRecord
  head_offset : Nat
  tail_offset : Nat
  deriving DecidableEq, Repr

namespace ValueLog

/-- Total byte length of the log, i.e. the offset at which the next appended
record will start. -/
def logSize (v : ValueLog) : Nat :=
  v.records.foldl (fun acc r => acc + r.byteSize) 0

/-- Modelled from the spec: `VLog::append` returns the offset of the written
record and extends the log.  (The engine updates `head` separately through
`set_head`.) -/
def append (v : ValueLog) (key value : Bytes) (created_at : Nat)
    (is_tombstone : Bool) : Nat × ValueLog :=
  (v.logSize, { v with records := v.records ++ [⟨key, value, created_at, is_tombstone⟩] })

/-- Helper for `vlGet`: walk the records accumulating byte offsets. -/
def getAt : List VLogRecord → Nat → Nat → Option (Bytes × Bool)
  | [], _, _ => none
  | r :: rest, cur, off =>
      if cur = off then some (r.value, r.is_tombstone)
      else getAt rest (cur + r.byteSize) off

/-- Modelled from the spec: `VLog::get(offset)` seeks to `offset`, reads one
record and returns `(value, tombstone)`; `None` past the end. -/
def vlGet (v : ValueLog) (off : Nat) : Option (Bytes × Bool) :=
  getAt v.records 0 off

/-- Modelled from the spec: `VLog::set_head`. -/
def set_head (v : ValueLog) (off : Nat) : ValueLog :=
  { v with head_offset := off }

/-- Modelled from the spec: `VLog::set_tail`. -/
def set_tail (v : ValueLog) (off : Nat) : ValueLog :=
  { v with tail_offset := off }

end ValueLog

/-! ## Storage engine orchestrator (`src/storage_engine/storage.rs`) -/

/-- Modelled from the spec: the outcome of Step 3 of `StorageEngine::get`
(the range-filtered, Bloom-filtered SST scan, `storage.rs` lines 277–341).
The `sst`, `sparse_index`, `sstable`, `key_offseter` and `bloom_filter`
modules it uses are not under `src/`.  `earlyErr` covers the early returns
(`KeyNotFoundInAnySSTableError` when range pruning or the sparse index
yields no candidate, `KeyNotFoundByAnyBloomFilterError` when every filter
rejects); `scanned` gives the values of `offset`,
`most_recent_insert_time` and `is_deleted` after the loop over candidate
SSTs completes. -/
inductive SSTTierOutcome where
  | earlyErr (e : StorageEngineError)
  | scanned (offset : Nat) (created_at : Nat) (is_tombstone : Bool)

/-- `self.active_memtable.index.iter().max_by_key(|e| e.value().0)`
(`storage.rs`, rollover in `put` and `delete`): the largest `val_offset`
in the index, `none` when the index is empty (where the source's `unwrap`
would panic). -/
def maxByValOffset : List (Bytes × (Nat × Nat × Bool)) → Option Nat
  | [] => none
  | x :: rest => some (rest.foldl (fun acc y => if y.2.1 ≥ acc then y.2.1 else acc) x.2.1)

/-- The storage-engine state visible to the verified operations
(`StorageEngine<Vec<u8>>` in `storage.rs`).  `read_only_memtables` embeds
the `IndexMap` of sealed memtables as an insertion-ordered association
list; `max_buffer_write_number` comes from `Config` (module `cfg`, not
under `src/`, but the field is only compared against the queue length);
`sst_tier` abstracts the read path below the memtables (see
`SSTTierOutcome`).  The flush/compaction channels perform no state change
on these fields and are omitted. -/
structure StorageEngine where
  active_memtable : InMemoryTable
  read_only_memtables : List (Bytes × InMemoryTable)
  val_log : ValueLog
  max_buffer_write_number : Nat
  sst_tier : Bytes → SSTTierOutcome

namespace StorageEngine

/-- The Step-2 loop of `get` (`storage.rs`, lines 263–273): scan the
read-only memtables keeping the record with the largest `creation_date`.
The accumulator is `(offset, most_recent_insert_time, is_deleted)`,
initially `(0, 0, false)`. -/
def roScan (key : Bytes) : List (Bytes × InMemoryTable) → Nat × Nat × Bool → Nat × Nat × Bool
  | [], acc => acc
  | kv :: rest, acc =>
      roScan key rest
        (match kv.2.get key with
         | some (voff, cdate, tomb) => if cdate > acc.2.1 then (voff, cdate, tomb) else acc
         | none => acc)

/-- The final value-log dereference of `get` (`storage.rs`, lines 346–359):
when a record was found (`most_recent_insert_time > 0`), read the value at
`offset` from the value log; otherwise `NotFoundInDB`. -/
def vlogDeref (s : StorageEngine) (offset mrt : Nat) :
    Except StorageEngineError (Bytes × Nat) :=
  if mrt > 0 then
    match s.val_log.vlGet offset with
    | some (v, tomb) =>
        if tomb then .error KeyFoundAsTombstoneInValueLogError
        else .ok (v, mrt)
    | none => .error KeyNotFoundInValueLogError
  else .error NotFoundInDB

/-- `StorageEngine::get` (`storage.rs`, lines 246–360): active memtable,
then read-only memtables, then the SST tier, then the value-log
dereference. -/
def get (s : StorageEngine) (key : Bytes) : Except StorageEngineError (Bytes × Nat) :=
  match s.active_memtable.get key with
  | some (voff, cdate, tomb) =>
      if tomb then .error KeyFoundAsTombstoneInMemtableError
      else s.vlogDeref voff cdate
  | none =>
      let scan := roScan key s.read_only_memtables (0, 0, false)
      if scan.2.1 > 0 && scan.2.2 then .error KeyFoundAsTombstoneInMemtableError
      else if scan.2.1 = 0 then
        match s.sst_tier key with
        | .earlyErr e => .error e
        | .scanned voff ts tomb =>
            if ts > 0 && tomb then .error KeyFoundAsTombstoneInSSTableError
            else s.vlogDeref voff ts
      else s.vlogDeref scan.1 scan.2.1

/-- `StorageEngine::put` (`storage.rs`, lines 164–243).  The sampled clocks
and the random memtable id are passed in: `now` is the `created_at` sampled
at the top, `headTs` the second `Utc::now()` used for the `HEAD` sentinel
entry, `newTableTs` the clock sample inside the new table's constructor,
and `tableId` the `generate_table_id()` value.  Returns `none` where the
source would panic (`head_offset.unwrap()` on an empty index). -/
def put (s : StorageEngine) (key value : Bytes) (now headTs newTableTs : Nat)
    (tableId : Bytes) : Option (Except StorageEngineError Bool × StorageEngine) :=
  let created_at := now
  let is_tombstone := false
  let (v_offset, vlog1) := s.val_log.append key value created_at is_tombstone
  let entry : Entry := ⟨key, v_offset, created_at, is_tombstone⟩
  if s.active_memtable.is_full HEAD_ENTRY_KEY.length then
    let capacity := s.active_memtable.capacity
    let size_unit := s.active_memtable.size_unit
    let false_positive_rate := s.active_memtable.false_positive_rate
    match maxByValOffset s.active_memtable.index with
    | none => none
    | some head_offset =>
        let vlog2 := vlog1.set_head head_offset
        let head_entry : Entry := ⟨HEAD_ENTRY_KEY, head_offset, headTs, false⟩
        let sealed := { s.active_memtable.insertRun head_entry with read_only := true }
        let ros := assocPut s.read_only_memtables tableId sealed
        -- when `ros.length ≥ max_buffer_write_number` the source spawns a task
        -- sending the oldest sealed table to the flush channel; no engine field
        -- modelled here changes
        let newActive := InMemoryTable.with_specified_capacity_and_rate
          size_unit capacity false_positive_rate newTableTs
        some (Except.ok true,
          { s with
            active_memtable := newActive.insertRun entry
            read_only_memtables := ros
            val_log := vlog2 })
  else
    some (Except.ok true,
      { s with
        active_memtable := s.active_memtable.insertRun entry
        val_log := vlog1 })

/-- `StorageEngine::delete` (`storage.rs`, lines 362–430).  First performs
`get` and propagates its error; then appends a tombstone record to the
value log and inserts the tombstone entry into `active_memtable`.  In the
rollover branch, the source allocates a replacement active memtable only
inside the `read_only_memtables.len() >= max_buffer_write_number` block
(lines 400–419); otherwise the sealed table stays active.  Clock and id
parameters are as in `put`. -/
def delete (s : StorageEngine) (key : Bytes) (now headTs newTableTs : Nat)
    (tableId : Bytes) : Option (Except StorageEngineError Bool × StorageEngine) :=
  match s.get key with
  | .error e => some (Except.error e, s)
  | .ok _ =>
      let value := TOMB_STONE_MARKER_BYTES
      let created_at := now
      let is_tombstone := true
      let (v_offset, vlog1) := s.val_log.append key value created_at is_tombstone
      let entry : Entry := ⟨key, v_offset, created_at, is_tombstone⟩
      if s.active_memtable.is_full HEAD_ENTRY_KEY.length then
        let capacity := s.active_memtable.capacity
        let size_unit := s.active_memtable.size_unit
        let false_positive_rate := s.active_memtable.false_positive_rate
        match maxByValOffset s.active_memtable.index with
        | none => none
        | some head_offset =>
            -- unlike `put`, `delete` does not call `set_head`, and the HEAD
            -- sentinel entry reuses `is_tombstone` (true)
            let head_entry : Entry := ⟨HEAD_ENTRY_KEY, head_offset, headTs, is_tombstone⟩
            let sealed := { s.active_memtable.insertRun head_entry with read_only := true }
            let ros := assocPut s.read_only_memtables tableId sealed
            if ros.length ≥ s.max_buffer_write_number then
              let newActive := InMemoryTable.with_specified_capacity_and_rate
                size_unit capacity false_positive_rate newTableTs
              some (Except.ok true,
                { s with
                  active_memtable := newActive.insertRun entry
                  read_only_memtables := ros
                  val_log := vlog1 })
            else
              some (Except.ok true,
                { s with
                  active_memtable := sealed.insertRun entry
                  read_only_memtables := ros
                  val_log := vlog1 })
      else
        some (Except.ok true,
          { s with
            active_memtable := s.active_memtable.insertRun entry
            val_log := vlog1 })

/-- `StorageEngine::update` (`storage.rs`, lines 432–435): calls `put`. -/
def update (s : StorageEngine) (key value : Bytes) (now headTs newTableTs : Nat)
    (tableId : Bytes) : Option (Except StorageEngineError Bool × StorageEngine) :=
  s.put key value now headTs newTableTs tableId

/-- One iteration of the replay loop of `StorageEngine::recover_memtable`
(`storage.rs`, lines 772–804), threading
`(active_memtable, read_only_memtables, most_recent_offset)`.
`head_offset` is the recovered head; `ids i` stands for the
`generate_table_id()` of the `i`-th rollover and `tsGen i` for the clock
sample of the `i`-th freshly constructed table. -/
def recoverFold (size_unit : SizeUnit) (capacity : Nat) (fpr : Rat)
    (head_offset : Nat) (ids : Nat → Bytes) (tsGen : Nat → Nat) :
    List VLogRecord → InMemoryTable × List (Bytes × InMemoryTable) × Nat →
    InMemoryTable × List (Bytes × InMemoryTable) × Nat
  | [], st => st
  | e :: rest, (active, ros, off) =>
      recoverFold size_unit capacity fpr head_offset ids tsGen rest
        (if off ≠ head_offset then
          if active.is_full e.key.length then
            ((InMemoryTable.with_specified_capacity_and_rate size_unit capacity fpr
                (tsGen (assocPut ros (ids ros.length)
                  { active with read_only := true }).length)).insertRun
              ⟨e.key, off, e.created_at, e.is_tombstone⟩,
             assocPut ros (ids ros.length) { active with read_only := true },
             off + e.byteSize)
          else
            (active.insertRun ⟨e.key, off, e.created_at, e.is_tombstone⟩, ros,
             off + e.byteSize)
        else
          (active, ros, off + e.byteSize))

/-- `StorageEngine::recover_memtable` (`storage.rs`, lines 747–807), given
the entries `VLog::recover(head_offset)` yielded.  `most_recent_offset`
starts at `head_offset` and each entry is indexed at the current offset;
an entry is inserted only when `most_recent_offset != head_offset`. -/
def recover_memtable (size_unit : SizeUnit) (capacity : Nat) (fpr : Rat)
    (entries : List VLogRecord) (head_offset : Nat) (ids : Nat → Bytes)
    (tsGen : Nat → Nat) : InMemoryTable × List (Bytes × InMemoryTable) :=
  let active0 := InMemoryTable.with_specified_capacity_and_rate
    size_unit capacity fpr (tsGen 0)
  let st := recoverFold size_unit capacity fpr head_offset ids tsGen entries
    (active0, [], head_offset)
  (st.1, st.2.1)

end StorageEngine

/-! ## Spec-side definitions for the refinement-style claims -/

/-- Spec-side for C6: annotate each replayed record with the byte offset at
which it occurs in the value log, starting from `start`. -/
def vlogOffsets : List VLogRecord → Nat → List (VLogRecord × Nat)
  | [], _ => []
  | e :: rest, start => (e, start) :: vlogOffsets rest (start + e.byteSize)

/-- Spec-side for C6: insert a sequence of offset-annotated records into the
rebuilt memtables, rolling the active table into a fresh immutable one
whenever it fills (spec §4.9 step 6). -/
def replayFoldSpec (size_unit : SizeUnit) (capacity : Nat) (fpr : Rat)
    (ids : Nat → Bytes) (tsGen : Nat → Nat) :
    List (VLogRecord × Nat) → InMemoryTable × List (Bytes × InMemoryTable) →
    InMemoryTable × List (Bytes × InMemoryTable)
  | [], st => st
  | (e, off) :: rest, (active, ros) =>
      replayFoldSpec size_unit capacity fpr ids tsGen rest
        (if active.is_full e.key.length then
          ((InMemoryTable.with_specified_capacity_and_rate size_unit capacity fpr
              (tsGen (assocPut ros (ids ros.length)
                { active with read_only := true }).length)).insertRun
            ⟨e.key, off, e.created_at, e.is_tombstone⟩,
           assocPut ros (ids ros.length) { active with read_only := true })
        else
          (active.insertRun ⟨e.key, off, e.created_at, e.is_tombstone⟩, ros))

/-- Spec-side for C6, following the spec's words: replay the value log from
the recovered head forward, reinserting each record — indexed at the byte
offset at which it occurs — into memtables, skipping the very first record
located at the head offset. -/
def recoverMemtableSpec (size_unit : SizeUnit) (capacity : Nat) (fpr : Rat)
    (entries : List VLogRecord) (head_offset : Nat) (ids : Nat → Bytes)
    (tsGen : Nat → Nat) : InMemoryTable × List (Bytes × InMemoryTable) :=
  let active0 := InMemoryTable.with_specified_capacity_and_rate
    size_unit capacity fpr (tsGen 0)
  replayFoldSpec size_unit capacity fpr ids tsGen
    (List.drop 1 (vlogOffsets entries head_offset)) (active0, [])

/-- The records the memtable tiers hold for `key`: the active memtable's
record (if any) followed by each read-only memtable's record, each obtained
through `InMemoryTable::get`.  Used to state C4. -/
def memtableTierRecords (s : StorageEngine) (key : Bytes) : List (Nat × Nat × Bool) :=
  (match s.active_memtable.get key with
   | some r => [r]
   | none => []) ++
  s.read_only_memtables.filterMap (fun kv => kv.2.get key)

/-! ## Concrete states used by witnesses and counterexamples -/

/-- A small populated memtable: key `[1]` is in the Bloom filter and bound
to `(val_offset 5, created_at 3, not a tombstone)`. -/
def tblSmall : InMemoryTable :=
  { index := [([1], (5, 3, false))]
    bloom_filter := [[1]]
    false_positive_rate := 0
    size := 18
    size_unit := SizeUnit.Bytes
    capacity := 100
    created_at := 0
    read_only := false }

/-- A one-entry key-range map whose single SST envelope is `[[5], [6]]`. -/
def krOne : KeyRange := ⟨[(0, ⟨[5], [6], 0⟩)]⟩

/-- An empty engine: empty active memtable, no read-only memtables, empty
value log, and an SST tier that rejects every key. -/
def engEmpty : StorageEngine :=
  { active_memtable := InMemoryTable.with_specified_capacity_and_rate
      SizeUnit.Bytes 100 0 0
    read_only_memtables := []
    val_log := { records := [], head_offset := 0, tail_offset := 0 }
    max_buffer_write_number := 2
    sst_tier := fun _ => .earlyErr KeyNotFoundInAnySSTableError }

/-- An engine whose active memtable holds a tombstone for key `[1]` with
timestamp 10. -/
def engTomb : StorageEngine :=
  { active_memtable :=
      { index := [([1], (0, 10, true))]
        bloom_filter := [[1]]
        false_positive_rate := 0
        size := 18
        size_unit := SizeUnit.Bytes
        capacity := 100
        created_at := 0
        read_only := false }
    read_only_memtables := []
    val_log := { records := [], head_offset := 0, tail_offset := 0 }
    max_buffer_write_number := 2
    sst_tier := fun _ => .earlyErr KeyNotFoundInAnySSTableError }

/-- An engine whose active memtable is full (`size 85`, `capacity 100`, so
`is_full` holds for the 4-byte HEAD key), holds key `[1]` at value-log
offset 0, and whose value log resolves that offset to value `[7]`; the
read-only queue is empty and `max_buffer_write_number` is 2. -/
def engFull : StorageEngine :=
  { active_memtable :=
      { index := [([1], (0, 10, false))]
        bloom_filter := [[1]]
        false_positive_rate := 0
        size := 85
        size_unit := SizeUnit.Bytes
        capacity := 100
        created_at := 0
        read_only := false }
    read_only_memtables := []
    val_log := { records := [⟨[1], [7], 10, false⟩], head_offset := 0, tail_offset := 0 }
    max_buffer_write_number := 2
    sst_tier := fun _ => .earlyErr KeyNotFoundInAnySSTableError }

/-- An engine identical to `engFull` except that the value log is still
empty, so `get` on `[1]` fails with `KeyNotFoundInValueLogError`. -/
def engFullNoLog : StorageEngine :=
  { active_memtable := engFull.active_memtable
    read_only_memtables := []
    val_log := { records := [], head_offset := 0, tail_offset := 0 }
    max_buffer_write_number := 2
    sst_tier := fun _ => .earlyErr KeyNotFoundInAnySSTableError }

/-! ## Helper lemmas -/

/-- Overwriting a key and looking it up yields the new value. -/
theorem assocGet_assocPut_self (l : List (Bytes × α)) (k : Bytes) (v : α) :
    assocGet (assocPut l k v) k = some v := by
  induction l with
  | nil => simp [assocPut, assocGet]
  | cons hd tl ih =>
      by_cases h : hd.1 = k
      · simp [assocPut, assocGet, h]
      · simp only [assocPut, assocGet, h, if_false]
        exact ih

/-- `insert` always succeeds and its result is determined by the Bloom
branch: the index is overwritten, the size grows by the entry footprint,
and the Bloom filter gains the key when absent. -/
theorem insert_eq_ok (t : InMemoryTable) (e : Entry) :
    t.insert e = Except.ok
      { t with
        bloom_filter :=
          if t.bloom_filter.bfContains e.key then t.bloom_filter
          else t.bloom_filter.bfSet e.key
        index := assocPut t.index e.key (e.val_offset, e.created_at, e.is_tombstone)
        size := t.size + (e.key.length + SIZE_OF_U32 + SIZE_OF_U64 + SIZE_OF_U8) } := by
  by_cases h : t.bloom_filter.bfContains e.key
  · simp [InMemoryTable.insert, h]
  · simp [InMemoryTable.insert, h]

/-- `insertRun` exposes the table of the (always taken) `Ok` branch. -/
theorem insertRun_eq (t : InMemoryTable) (e : Entry) :
    t.insertRun e =
      { t with
        bloom_filter :=
          if t.bloom_filter.bfContains e.key then t.bloom_filter
          else t.bloom_filter.bfSet e.key
        index := assocPut t.index e.key (e.val_offset, e.created_at, e.is_tombstone)
        size := t.size + (e.key.length + SIZE_OF_U32 + SIZE_OF_U64 + SIZE_OF_U8) } := by
  unfold InMemoryTable.insertRun
  rw [insert_eq_ok]

/-- After `insertRun`, `get` on the inserted key returns the entry. -/
theorem insertRun_get_self (t : InMemoryTable) (e : Entry) :
    (t.insertRun e).get e.key = some (e.val_offset, e.created_at, e.is_tombstone) := by
  rw [insertRun_eq]
  by_cases h : t.bloom_filter.bfContains e.key
  · simp [InMemoryTable.get, h, assocGet_assocPut_self]
  · simp [InMemoryTable.get, BloomFilter.bfContains, BloomFilter.bfSet,
      assocGet_assocPut_self]
    by_cases hm : e.key ∈ t.bloom_filter <;> simp [hm]

/-! ## Claim theorems -/

/-- C7: for every entry, memtable `insert` succeeds (it never returns an
error, in particular never from capacity), records the entry's
`(val_offset, created_at, is_tombstone)` under its key in the ordered map
(overwriting any previous version, as the lookup conjunct shows), adds the
key to the Bloom filter exactly when absent, and increments the size
counter by exactly `len(key) + 4 + 8 + 1` bytes. -/
theorem insert_total_and_overwrites (t : InMemoryTable) (e : Entry) :
    t.insert e = Except.ok
      { t with
        bloom_filter :=
          if t.bloom_filter.bfContains e.key then t.bloom_filter
          else t.bloom_filter.bfSet e.key
        index := assocPut t.index e.key (e.val_offset, e.created_at, e.is_tombstone)
        size := t.size + (e.key.length + SIZE_OF_U32 + SIZE_OF_U64 + SIZE_OF_U8) }
    ∧ assocGet (assocPut t.index e.key (e.val_offset, e.created_at, e.is_tombstone)) e.key
        = some (e.val_offset, e.created_at, e.is_tombstone) :=
  ⟨insert_eq_ok t e, assocGet_assocPut_self t.index e.key _⟩

/-- C8: `is_full(next_key_len)` returns true exactly when
`size + next_key_len + 13 ≥ capacity`, where `13 = 4 + 8 + 1`. -/
theorem is_full_iff_capacity (t : InMemoryTable) (len : Nat) :
    t.is_full len = true ↔ t.size + len + 13 ≥ t.capacity := by
  simp only [InMemoryTable.is_full, SIZE_OF_U32, SIZE_OF_U64, SIZE_OF_U8,
    ge_iff_le, decide_eq_true_eq]

/-- C10: memtable `update`, when the Bloom filter accepts the key, replaces
the key's record in the ordered map but leaves the size counter unchanged
(so `is_full` answers exactly as before, and repeated updates never advance
the capacity check), whereas `insert` of the same entry grows the size by
`len(key) + 4 + 8 + 1`. -/
theorem update_preserves_size (t : InMemoryTable) (e : Entry)
    (h : t.bloom_filter.bfContains e.key = true) :
    t.update e = Except.ok
      { t with index := assocPut t.index e.key (e.val_offset, e.created_at, e.is_tombstone) }
    ∧ ({ t with index := assocPut t.index e.key (e.val_offset, e.created_at, e.is_tombstone) }
        : InMemoryTable).size = t.size
    ∧ (∀ l, ({ t with
          index := assocPut t.index e.key (e.val_offset, e.created_at, e.is_tombstone) }
        : InMemoryTable).is_full l = t.is_full l)
    ∧ ∀ t2, t.insert e = Except.ok t2 →
        t2.size = t.size + (e.key.length + SIZE_OF_U32 + SIZE_OF_U64 + SIZE_OF_U8) := by
  refine ⟨?_, rfl, fun _ => rfl, ?_⟩
  · simp [InMemoryTable.update, h]
  · intro t2 ht2
    rw [insert_eq_ok] at ht2
    injection ht2 with h2
    rw [← h2]

/-- C10 witness: `update_preserves_size` applied to the concrete table
`tblSmall` and an entry for key `[1]`. -/
theorem update_preserves_size_witness :
    tblSmall.bloom_filter.bfContains [1] = true ∧
    tblSmall.update ⟨[1], 9, 4, false⟩
      = Except.ok { tblSmall with index := assocPut tblSmall.index [1] (9, 4, false) } :=
  ⟨by decide, (update_preserves_size tblSmall ⟨[1], 9, 4, false⟩ (by decide)).1⟩

/-- C3 counterexample: memtable `delete` of an entry whose `is_tombstone`
field is `false` (for a key the Bloom filter accepts) inserts a record
whose `is_tombstone` is `false`, not `true` as the claim states; only the
timestamp is freshly sampled (here `99`, replacing the entry's `3`). -/
theorem delete_tombstone_flag_counterexample :
    tblSmall.delete ⟨[1], 5, 3, false⟩ 99
      = Except.ok { tblSmall with index := [([1], (5, 99, false))] }
    ∧ ({ tblSmall with index := [([1], (5, 99, false))] } : InMemoryTable).get [1]
        = some (5, 99, false) := by
  constructor
  · rfl
  · decide

/-- C3 (amended): memtable `delete` fails with `KeyNotFoundInMemTable` when
the Bloom filter rejects the key; otherwise it inserts a record for the key
carrying the entry's `val_offset`, the entry's own `is_tombstone` flag
(true when the caller passes a tombstone entry), and a timestamp freshly
sampled at the time of the delete call. -/
theorem delete_bloom_gate_fresh_timestamp (t : InMemoryTable) (e : Entry) (now : Nat) :
    (t.bloom_filter.bfContains e.key = false →
      t.delete e now = Except.error KeyNotFoundInMemTable)
    ∧ (t.bloom_filter.bfContains e.key = true →
      t.delete e now = Except.ok
        { t with index := assocPut t.index e.key (e.val_offset, now, e.is_tombstone) }) := by
  constructor
  · intro h
    simp [InMemoryTable.delete, h]
  · intro h
    simp [InMemoryTable.delete, h]

/-- C3 witness: `delete_bloom_gate_fresh_timestamp` applied with a key the
Bloom filter of `tblSmall` rejects. -/
theorem delete_bloom_gate_fresh_timestamp_witness :
    tblSmall.bloom_filter.bfContains [2] = false ∧
    tblSmall.delete ⟨[2], 5, 3, true⟩ 99 = Except.error KeyNotFoundInMemTable :=
  ⟨by decide, (delete_bloom_gate_fresh_timestamp tblSmall ⟨[2], 5, 3, true⟩ 99).1 (by decide)⟩

/-- C2: evaluation at the failing input.  `range_scan([1], [2])` on a map
whose single SST envelope is `[[5], [6]]` returns that SST, although its
envelope does not intersect `[lo, hi] = [[1], [2]]` (its smallest key `[5]`
exceeds `hi = [2]`): the source keeps any range with
`smallest_key ≤ lo OR biggest_key ≥ hi` instead of the intersection
predicate. -/
theorem range_scan_or_bug_eval :
    krOne.range_scan [1] [2] = [⟨[5], [6], 0⟩]
    ∧ envelopeIntersects ⟨[5], [6], 0⟩ [1] [2] = false := by
  decide

/-- The Step-2 scan either leaves the accumulator untouched (and then every
read-only record's timestamp is at most the accumulator's) or returns a
record of maximal timestamp, strictly above the accumulator's. -/
theorem roScan_cases (key : Bytes) (tables : List (Bytes × InMemoryTable))
    (acc : Nat × Nat × Bool) :
    (StorageEngine.roScan key tables acc = acc
      ∧ ∀ r ∈ tables.filterMap (fun kv => kv.2.get key), r.2.1 ≤ acc.2.1)
    ∨ ∃ r ∈ tables.filterMap (fun kv => kv.2.get key),
        StorageEngine.roScan key tables acc = r
        ∧ acc.2.1 < r.2.1
        ∧ ∀ r' ∈ tables.filterMap (fun kv => kv.2.get key), r'.2.1 ≤ r.2.1 := by
  induction tables generalizing acc with
  | nil =>
      left
      exact ⟨rfl, by simp⟩
  | cons kv rest ih =>
      cases hk : kv.2.get key with
      | none =>
          have hscan : StorageEngine.roScan key (kv :: rest) acc
              = StorageEngine.roScan key rest acc := by
            simp [StorageEngine.roScan, hk]
          have hfm : (kv :: rest).filterMap (fun kv => kv.2.get key)
              = rest.filterMap (fun kv => kv.2.get key) :=
            List.filterMap_cons_none hk
          rw [hscan, hfm]
          exact ih acc
      | some r0 =>
          have hscan : StorageEngine.roScan key (kv :: rest) acc
              = StorageEngine.roScan key rest
                  (if r0.2.1 > acc.2.1 then r0 else acc) := by
            simp [StorageEngine.roScan, hk]
          have hfm : (kv :: rest).filterMap (fun kv => kv.2.get key)
              = r0 :: rest.filterMap (fun kv => kv.2.get key) :=
            List.filterMap_cons_some hk
          rw [hscan, hfm]
          by_cases hgt : r0.2.1 > acc.2.1
          · rw [if_pos hgt]
            rcases ih r0 with ⟨heq, hle⟩ | ⟨r, hrmem, heq, hlt, hmaxr⟩
            · right
              refine ⟨r0, by simp, heq, hgt, ?_⟩
              intro r' hr'
              rcases List.mem_cons.mp hr' with h | h
              · exact h ▸ le_refl _
              · exact hle r' h
            · right
              refine ⟨r, List.mem_cons_of_mem _ hrmem, heq, lt_trans hgt hlt, ?_⟩
              intro r' hr'
              rcases List.mem_cons.mp hr' with h | h
              · exact h ▸ le_of_lt hlt
              · exact hmaxr r' h
          · rw [if_neg hgt]
            rcases ih acc with ⟨heq, hle⟩ | ⟨r, hrmem, heq, hlt, hmaxr⟩
            · left
              refine ⟨heq, ?_⟩
              intro r' hr'
              rcases List.mem_cons.mp hr' with h | h
              · exact h ▸ le_of_not_lt hgt
              · exact hle r' h
            · right
              refine ⟨r, List.mem_cons_of_mem _ hrmem, heq, hlt, ?_⟩
              intro r' hr'
              rcases List.mem_cons.mp hr' with h | h
              · exact h ▸ le_trans (le_of_not_lt hgt) (le_of_lt hlt)
              · exact hmaxr r' h

/-- C4: for every key whose most recent record (maximal `created_at`) in
the memtable tiers is a tombstone, `StorageEngine::get` returns the
tombstone-class error `KeyFoundAsTombstoneInMemtableError` rather than a
value.  The hypotheses state the claim's premise over
`memtableTierRecords`: the key has a record in the memtable tiers, all its
timestamps are positive (they are epoch milliseconds), every record of
maximal timestamp is a tombstone, and — the tier-precedence invariant of
reachable states — an active-memtable record is at least as recent as any
read-only one. -/
theorem get_tombstone_in_memtables (s : StorageEngine) (key : Bytes)
    (hne : memtableTierRecords s key ≠ [])
    (hpos : ∀ r ∈ memtableTierRecords s key, 0 < r.2.1)
    (hmax : ∀ r ∈ memtableTierRecords s key,
      (∀ r' ∈ memtableTierRecords s key, r'.2.1 ≤ r.2.1) → r.2.2 = true)
    (hactive : ∀ r, s.active_memtable.get key = some r →
      ∀ r' ∈ memtableTierRecords s key, r'.2.1 ≤ r.2.1) :
    s.get key = Except.error KeyFoundAsTombstoneInMemtableError := by
  cases hA : s.active_memtable.get key with
  | some rec =>
      obtain ⟨voff, cdate, tomb⟩ := rec
      have hmem : (voff, cdate, tomb) ∈ memtableTierRecords s key := by
        unfold memtableTierRecords
        rw [hA]
        simp
      have htomb : tomb = true := by
        simpa using hmax _ hmem (hactive _ hA)
      subst htomb
      simp [StorageEngine.get, hA]
  | none =>
      have hrec : memtableTierRecords s key
          = s.read_only_memtables.filterMap (fun kv => kv.2.get key) := by
        unfold memtableTierRecords
        rw [hA]
        simp
      rcases roScan_cases key s.read_only_memtables (0, 0, false) with
        ⟨heq, hle⟩ | ⟨r, hrmem, heq, hlt, hmaxr⟩
      · exfalso
        rcases List.exists_mem_of_ne_nil _ hne with ⟨r, hr⟩
        have h1 := hpos r hr
        have h2 := hle r (hrec ▸ hr)
        simp at h2
        omega
      · have hmem : r ∈ memtableTierRecords s key := by
          rw [hrec]
          exact hrmem
        have htomb : r.2.2 = true := by
          refine hmax r hmem ?_
          intro r' hr'
          exact hmaxr r' (hrec ▸ hr')
        have hposr : 0 < r.2.1 := hpos r hmem
        simp [StorageEngine.get, hA, heq, htomb, hposr]

/-- C4 witness: `get_tombstone_in_memtables` applied to `engTomb`, whose
active memtable holds a tombstone for `[1]` at timestamp 10. -/
theorem get_tombstone_in_memtables_witness :
    memtableTierRecords engTomb [1] ≠ [] ∧
    engTomb.get [1] = Except.error KeyFoundAsTombstoneInMemtableError :=
  ⟨by decide,
    get_tombstone_in_memtables engTomb [1] (by decide) (by decide) (by decide)
      (fun r hr => by
        injection hr with h
        subst h
        decide)⟩

/-- C5: `StorageEngine::delete` performs `get` first; if the `get` fails
the error is returned unchanged and the engine state is left untouched —
nothing is appended to the value log and nothing is inserted into any
memtable.  When the `get` succeeds, the call returns `Ok(true)`, the value
log is extended by exactly the tombstone record
`(key, TOMB_STONE_MARKER_BYTES, now, is_tombstone = true)`, and the active
memtable afterwards maps the key to that record's offset with a tombstone
flag. -/
theorem delete_get_gate (s : StorageEngine) (key : Bytes)
    (now headTs newTableTs : Nat) (tableId : Bytes) :
    (∀ e, s.get key = Except.error e →
      s.delete key now headTs newTableTs tableId = some (Except.error e, s))
    ∧ ∀ v r s', s.get key = Except.ok v →
        s.delete key now headTs newTableTs tableId = some (r, s') →
        r = Except.ok true
        ∧ s'.val_log = (s.val_log.append key TOMB_STONE_MARKER_BYTES now true).2
        ∧ s'.active_memtable.get key
            = some ((s.val_log.append key TOMB_STONE_MARKER_BYTES now true).1, now, true) := by
  constructor
  · intro e he
    unfold StorageEngine.delete
    rw [he]
  · intro v r s' hv hd
    unfold StorageEngine.delete at hd
    rw [hv] at hd
    simp only [ValueLog.append] at hd
    split at hd
    · split at hd
      · exact absurd hd (by simp)
      · split at hd
        · injection hd with hd1
          injection hd1 with hr hs
          subst hr; subst hs
          exact ⟨rfl, rfl, insertRun_get_self _ _⟩
        · injection hd with hd1
          injection hd1 with hr hs
          subst hr; subst hs
          exact ⟨rfl, rfl, insertRun_get_self _ _⟩
    · injection hd with hd1
      injection hd1 with hr hs
      subst hr; subst hs
      exact ⟨rfl, rfl, insertRun_get_self _ _⟩

/-- C5 witness: `delete_get_gate` applied to the empty engine, whose `get`
fails with `KeyNotFoundInAnySSTableError`: the delete returns that error
and the state is unchanged. -/
theorem delete_get_gate_witness :
    engEmpty.get [1] = Except.error KeyNotFoundInAnySSTableError ∧
    engEmpty.delete [1] 5 6 7 [9]
      = some (Except.error KeyNotFoundInAnySSTableError, engEmpty) :=
  ⟨by rfl, (delete_get_gate engEmpty [1] 5 6 7 [9]).1 _ (by rfl)⟩

/-- C9: `StorageEngine::update` is the very same function as
`StorageEngine::put`: same result and same successor state on every engine
state, key, value, clock sample and table id. -/
theorem update_eq_put (s : StorageEngine) (key value : Bytes)
    (now headTs newTableTs : Nat) (tableId : Bytes) :
    s.update key value now headTs newTableTs tableId
      = s.put key value now headTs newTableTs tableId := rfl

/-- C1: evaluation at the failing input.  On `engFull` — active memtable
full, read-only queue empty, `max_buffer_write_number = 2` — `delete`
seals the active memtable (`read_only := true`) and pushes a copy into the
read-only queue, but allocates no replacement: the tombstone for `[1]`
(value-log offset 19, timestamp 100) is inserted into the still-sealed
active memtable, whose `read_only` flag remains `true` afterwards.  The
claim requires a fresh active memtable before the insert on every such
call. -/
theorem delete_rollover_seals_active_eval :
    (engFull.delete [1] 100 101 102 [9]).map
        (fun p => (p.2.active_memtable.read_only,
                   p.2.read_only_memtables.length,
                   p.2.active_memtable.get [1]))
      = some (true, 1, some (19, 100, true)) := by
  decide

/-- A serialized value-log record occupies at least its 17 header bytes. -/
theorem byteSize_pos (e : VLogRecord) : 0 < e.byteSize := by
  unfold VLogRecord.byteSize SIZE_OF_U32 SIZE_OF_U64 SIZE_OF_U8
  omega

/-- Once the replay offset is strictly past the head, the source's
offset-threading loop computes exactly the spec-side replay of the
offset-annotated records. -/
theorem recoverFold_toSpec (su : SizeUnit) (cap : Nat) (fpr : Rat) (head : Nat)
    (ids : Nat → Bytes) (tsGen : Nat → Nat) :
    ∀ (entries : List VLogRecord) (active : InMemoryTable)
      (ros : List (Bytes × InMemoryTable)) (off : Nat), head < off →
      ((StorageEngine.recoverFold su cap fpr head ids tsGen entries (active, ros, off)).1,
       (StorageEngine.recoverFold su cap fpr head ids tsGen entries (active, ros, off)).2.1)
        = replayFoldSpec su cap fpr ids tsGen (vlogOffsets entries off) (active, ros) := by
  intro entries
  induction entries with
  | nil =>
      intro active ros off _
      rfl
  | cons e rest ih =>
      intro active ros off hlt
      have hne : off ≠ head := Nat.ne_of_gt hlt
      have hlt' : head < off + e.byteSize :=
        Nat.lt_of_lt_of_le hlt (Nat.le_add_right off e.byteSize)
      unfold StorageEngine.recoverFold vlogOffsets replayFoldSpec
      rw [if_pos hne]
      by_cases hf : active.is_full e.key.length
      · rw [if_pos hf, if_pos hf]
        exact ih _ _ _ hlt'
      · rw [if_neg hf, if_neg hf]
        exact ih _ _ _ hlt'

/-- C6: recovery replay, as implemented (`recover_memtable` threading
`most_recent_offset` and skipping the insert when it equals the head),
coincides with the spec-side description: every parsed record except the
very first one — located exactly at the head offset — is inserted into the
rebuilt memtables (rolling into a fresh immutable memtable whenever the
active one fills), each record indexed at the byte offset at which it
occurs in the value log. -/
theorem recover_memtable_refines_replay (su : SizeUnit) (cap : Nat) (fpr : Rat)
    (entries : List VLogRecord) (head : Nat) (ids : Nat → Bytes) (tsGen : Nat → Nat) :
    StorageEngine.recover_memtable su cap fpr entries head ids tsGen
      = recoverMemtableSpec su cap fpr entries head ids tsGen := by
  unfold StorageEngine.recover_memtable recoverMemtableSpec
  cases entries with
  | nil => rfl
  | cons e rest =>
      have h2 : StorageEngine.recoverFold su cap fpr head ids tsGen (e :: rest)
          (InMemoryTable.with_specified_capacity_and_rate su cap fpr (tsGen 0), [], head)
          = StorageEngine.recoverFold su cap fpr head ids tsGen rest
            (InMemoryTable.with_specified_capacity_and_rate su cap fpr (tsGen 0), [],
             head + e.byteSize) := by
        conv_lhs => rw [StorageEngine.recoverFold]
        simp
      have h1 : List.drop 1 (vlogOffsets (e :: rest) head)
          = vlogOffsets rest (head + e.byteSize) := by
        have : vlogOffsets (e :: rest) head
            = (e, head) :: vlogOffsets rest (head + e.byteSize) := rfl
        rw [this]
        simp
      simp only [h2, h1]
      exact recoverFold_toSpec su cap fpr head ids tsGen rest _ _ _
        (Nat.lt_add_of_pos_right (byteSize_pos e))
